import Mathlib

/-!
Verification of the live-conversation core of DivtIndia's Chatbox
(`src/components/LiveFeature.tsx`).

The development shallowly embeds:
* the float → int16 capture encoding loop (`scriptProcessor.onaudioprocess`),
* the base64 codec and PCM decoding (`utils/media`, absent from the sources,
  modelled from the spec),
* the `onmessage` handler (transcription accumulation, turn completion, and
  gapless playback scheduling via `nextStartTime`),
* the lifecycle operations `stopLiveConversation` / `startLiveConversation`.

Audio samples are modelled as exact rationals: every float32 sample value is a
rational, multiplication by the power of two 32768 and truncation toward zero
are exact in float arithmetic, so the rational model computes precisely the
values the JavaScript code computes on representable inputs.
-/

namespace LiveFeature

/-! ## Audio codec -/

/-- Truncation toward zero of a rational, the semantics of JavaScript's
`ToIntegerOrInfinity` step used when a number is stored into an `Int16Array`. -/
def ratTrunc (q : ℚ) : ℤ := if 0 ≤ q then ⌊q⌋ else ⌈q⌉

/-- Reduction of an integer to the signed 16-bit range by wraparound modulo
2^16, the final step of JavaScript's `ToInt16` conversion performed by
`int16[i] = inputData[i] * 32768` (no clamping in the source). -/
def wrap16 (z : ℤ) : ℤ := (z + 32768) % 65536 - 32768

/-- One sample of the capture encoding loop of `scriptProcessor.onaudioprocess`
(`LiveFeature.tsx` line 83): `int16[i] = inputData[i] * 32768`, i.e. multiply by
32768, truncate toward zero, wrap to a signed 16-bit integer. -/
def encodeSample (s : ℚ) : ℤ := wrap16 (ratTrunc (s * 32768))

/-- Little-endian byte serialization of a signed 16-bit integer, the layout of
`new Uint8Array(int16.buffer)` on the (little-endian) platforms the app runs
on: low byte first, two's-complement high byte second. -/
def bytesLE (z : ℤ) : List ℕ :=
  let u := (z % 65536).toNat
  [u % 256, u / 256]

/-- Little-endian reinterpretation of two bytes as a signed 16-bit integer,
used when inbound PCM bytes are decoded back to samples. -/
def int16FromLE (lo hi : ℕ) : ℤ :=
  let u := lo + 256 * hi
  if u < 32768 then (u : ℤ) else (u : ℤ) - 65536

/-- Modelled from the spec: the `encode` utility of `utils/media` (absent from
the sources) — standard base64 encoding of a byte sequence.  Output symbols are
the sextet values `0..63`; the padding character `=` is represented by `64`. -/
def b64encode : List ℕ → List ℕ
  | [] => []
  | [a] => [a / 4, a % 4 * 16, 64, 64]
  | [a, b] => [a / 4, a % 4 * 16 + b / 16, b % 16 * 4, 64]
  | a :: b :: c :: rest =>
      (a / 4) :: (a % 4 * 16 + b / 16) :: (b % 16 * 4 + c / 64) :: (c % 64) ::
        b64encode rest

/-- Modelled from the spec: the `decode` utility of `utils/media` (absent from
the sources) — standard base64 decoding back to a byte sequence, `64` being the
padding symbol. -/
def b64decode : List ℕ → List ℕ
  | s1 :: s2 :: s3 :: s4 :: rest =>
      if s3 = 64 then [s1 * 4 + s2 / 16]
      else if s4 = 64 then [s1 * 4 + s2 / 16, s2 % 16 * 16 + s3 / 4]
      else (s1 * 4 + s2 / 16) :: (s2 % 16 * 16 + s3 / 4) ::
        (s3 % 4 * 64 + s4) :: b64decode rest
  | _ => []

/-- The capture encoding path of `scriptProcessor.onaudioprocess`
(`LiveFeature.tsx` lines 79-86): convert each float sample to int16, serialize
the int16 array to bytes little-endian, base64-encode. -/
def encodeFrame (samples : List ℚ) : List ℕ :=
  b64encode (samples.flatMap fun s => bytesLE (encodeSample s))

/-- Modelled from the spec: `decodeSegment` (`decodeAudioData` plus `decode` of
`utils/media`, absent from the sources) — base64-decode, reinterpret the bytes
as little-endian signed 16-bit PCM, rescale by dividing by 32768. -/
def pcmToSamples : List ℕ → List ℚ
  | lo :: hi :: rest => ((int16FromLE lo hi : ℚ) / 32768) :: pcmToSamples rest
  | _ => []

/-- Modelled from the spec: full decode path applied to a base64 payload. -/
def decodeSegment (b64 : List ℕ) : List ℚ :=
  pcmToSamples (b64decode b64)

/-! ## Server messages and the `onmessage` handler -/

/-- The fields of a `LiveServerMessage` that the `onmessage` handler reads
(`LiveFeature.tsx` lines 96-121).  The inbound audio payload
(`serverContent.modelTurn.parts[0].inlineData.data`) is represented by the
duration of its decoded buffer, the only attribute the handler's scheduling
logic uses. -/
structure Msg where
  outputTranscription : Option String
  inputTranscription : Option String
  turnComplete : Bool
  audioDuration : Option ℚ
deriving DecidableEq

/-- The mutable state the `onmessage` closure reads and writes: the two
transcription accumulators `currentInputTranscription` /
`currentOutputTranscription`, the `conversationHistory` React state, and the
playback clock `nextStartTime`. -/
structure MsgState where
  bufIn : String
  bufOut : String
  history : List (String × String)
  nextStartTime : ℚ
deriving DecidableEq

/-- One run of the `onmessage` handler (`LiveFeature.tsx` lines 96-121).
`ctxTime` is the output device's `outCtx.currentTime` observed during this
invocation.  Returns the updated state and, when the message carried audio,
the start time the segment was scheduled at (`source.start(nextStartTime)`). -/
def processMessage (ctxTime : ℚ) (s : MsgState) (m : Msg) : MsgState × Option ℚ :=
  let s1 := match m.outputTranscription with
    | some t => { s with bufOut := s.bufOut ++ t }
    | none => s
  let s2 := match m.inputTranscription with
    | some t => { s1 with bufIn := s1.bufIn ++ t }
    | none => s1
  let s3 := if m.turnComplete then
      { s2 with history := s2.history ++ [(s2.bufIn, s2.bufOut)],
                bufIn := "", bufOut := "" }
    else s2
  match m.audioDuration with
  | some d =>
      let st := max s3.nextStartTime ctxTime
      ({ s3 with nextStartTime := st + d }, some st)
  | none => (s3, none)

/-- Processing of a sequence of inbound messages in arrival order, each paired
with the `currentTime` of the output device at the moment it is handled;
collects the scheduled start times of all audio segments. -/
def runMessages (s : MsgState) : List (Msg × ℚ) → MsgState × List ℚ
  | [] => (s, [])
  | (m, t) :: rest =>
      let p := processMessage t s m
      let q := runMessages p.1 rest
      (q.1, p.2.toList ++ q.2)

/-- A message carrying only an audio segment of duration `d`. -/
def audioMsg (d : ℚ) : Msg :=
  { outputTranscription := none, inputTranscription := none,
    turnComplete := false, audioDuration := some d }

/-- A message carrying only the turn-complete signal. -/
def turnCompleteMsg : Msg :=
  { outputTranscription := none, inputTranscription := none,
    turnComplete := true, audioDuration := none }

/-- A message carrying only an input-transcription delta. -/
def inDeltaMsg (t : String) : Msg :=
  { outputTranscription := none, inputTranscription := some t,
    turnComplete := false, audioDuration := none }

/-- A message carrying only an output-transcription delta. -/
def outDeltaMsg (t : String) : Msg :=
  { outputTranscription := some t, inputTranscription := none,
    turnComplete := false, audioDuration := none }

/-- Text of an optional transcription delta (`""` when absent). -/
def optText : Option String → String
  | some t => t
  | none => ""

/-- Concatenation, in arrival order, of the input-transcription deltas carried
by a message sequence. -/
def inConcat : List (Msg × ℚ) → String
  | [] => ""
  | e :: rest => optText e.1.inputTranscription ++ inConcat rest

/-- Concatenation, in arrival order, of the output-transcription deltas carried
by a message sequence. -/
def outConcat : List (Msg × ℚ) → String
  | [] => ""
  | e :: rest => optText e.1.outputTranscription ++ outConcat rest

/-- The playback-scheduling recurrence of `onmessage` in isolation
(`LiveFeature.tsx` lines 114-120): for each segment, observed at output-device
time `t` with decoded duration `d`, the start time is
`max nextStartTime t` and the clock advances by `d`.  Returns the list of
scheduled start times. -/
def schedStarts (ns : ℚ) : List (ℚ × ℚ) → List ℚ
  | [] => []
  | (t, d) :: rest =>
      let st := max ns t
      st :: schedStarts (st + d) rest

/-! ## Session lifecycle -/

/-- The two audio contexts held in `audioResourcesRef`, each recording whether
its `state` is already `'closed'`. -/
structure AudioResources where
  inputClosed : Bool
  outputClosed : Bool
deriving DecidableEq

/-- The component state the lifecycle operations touch: `sessionPromiseRef`
(abstracted to whether a session promise is present), `audioResourcesRef`,
the `isRecording` flag, the `error` message state, and `conversationHistory`. -/
structure LiveState where
  sessionRef : Option Unit
  resources : Option AudioResources
  isRecording : Bool
  errorMsg : Option String
  history : List (String × String)
deriving DecidableEq

/-- The observable resource-release effects of teardown. -/
inductive Effect
  | closeSession
  | disconnectProcessor
  | stopTracks
  | closeInputCtx
  | closeOutputCtx
deriving DecidableEq

/-- `stopLiveConversation` (`LiveFeature.tsx` lines 20-37): close the session
and null its ref if present; disconnect the processor, stop the microphone
tracks, and close each not-yet-closed audio context if the resources ref is
present, then null it; finally clear `isRecording`.  Returns the new state and
the release effects performed. -/
def stopLiveConversation (s : LiveState) : LiveState × List Effect :=
  let p :=
    match s.sessionRef with
    | some _ => ({ s with sessionRef := none }, [Effect.closeSession])
    | none => (s, ([] : List Effect))
  let q :=
    match p.1.resources with
    | some r =>
        ({ p.1 with resources := none },
          [Effect.disconnectProcessor, Effect.stopTracks]
            ++ (if r.inputClosed then [] else [Effect.closeInputCtx])
            ++ (if r.outputClosed then [] else [Effect.closeOutputCtx]))
    | none => (p.1, ([] : List Effect))
  ({ q.1 with isRecording := false }, p.2 ++ q.2)

/-- A `LiveState` is terminal (`Closed`) when no session promise and no audio
resources are held and recording is off. -/
def isClosed (s : LiveState) : Prop :=
  s.sessionRef = none ∧ s.resources = none ∧ s.isRecording = false

/-- Which step of the start sequence (`LiveFeature.tsx` lines 55-64) fails, if
any: microphone acquisition, input/output audio-context creation, or the
transport connect call. -/
inductive StartEnv
  | micDenied
  | inputCtxFail
  | outputCtxFail
  | connectFail
  | ok
deriving DecidableEq

/-- The resources acquired step by step during start. -/
inductive Resource
  | micStream
  | inputCtx
  | outputCtx
deriving DecidableEq

/-- Error text set by the catch handler (`LiveFeature.tsx` line 141),
abstracting the underlying exception message per failing step. -/
def startFailMsg : StartEnv → String
  | .micDenied => "Failed to start conversation: permission denied"
  | .inputCtxFail => "Failed to start conversation: input context"
  | .outputCtxFail => "Failed to start conversation: output context"
  | .connectFail => "Failed to start conversation: connect"
  | .ok => ""

/-- Outcome of one `startLiveConversation` call: the state it leaves behind,
the failure it surfaced (if any), and which resources were acquired and
released during the call. -/
structure StartResult where
  state : LiveState
  failure : Option String
  acquired : List Resource
  released : List Resource
deriving DecidableEq

/-- `startLiveConversation` (`LiveFeature.tsx` lines 45-143): return
immediately if already recording; otherwise clear the error, set `isRecording`,
clear the history, then acquire the microphone, create both audio contexts and
call connect in order.  The catch handler (lines 140-143) sets the error text
and clears `isRecording`; it releases nothing. -/
def startLiveConversation (env : StartEnv) (s : LiveState) : StartResult :=
  if s.isRecording then
    { state := s, failure := none, acquired := [], released := [] }
  else
    let s1 : LiveState :=
      { s with errorMsg := none, isRecording := true, history := [] }
    let fail : List Resource → StartResult := fun acq =>
      { state := { s1 with errorMsg := some (startFailMsg env),
                           isRecording := false },
        failure := some (startFailMsg env), acquired := acq, released := [] }
    match env with
    | .micDenied => fail []
    | .inputCtxFail => fail [.micStream]
    | .outputCtxFail => fail [.micStream, .inputCtx]
    | .connectFail => fail [.micStream, .inputCtx, .outputCtx]
    | .ok =>
        { state := { s1 with sessionRef := some () },
          failure := none,
          acquired := [.micStream, .inputCtx, .outputCtx], released := [] }

/-- The payload forwarding step of `scriptProcessor.onaudioprocess`
(`LiveFeature.tsx` lines 78-91): the PCM blob is built from the frame, and it
is forwarded to the transport only through
`sessionPromiseRef.current?.then(...)` — nothing is sent when the session ref
is `null`. -/
def audioProcess (s : LiveState) (frame : List ℚ) : Option (List ℕ × String) :=
  match s.sessionRef with
  | some _ => some (encodeFrame frame, "audio/pcm;rate=16000")
  | none => none

/-! ## Codec lemmas -/

theorem b64_round_trip (l : List ℕ) (h : ∀ b ∈ l, b < 256) :
    b64decode (b64encode l) = l := by
  induction l using b64encode.induct with
  | case1 => rfl
  | case2 a =>
      have ha : a < 256 := h a (by simp)
      simp only [b64encode, b64decode, if_true, List.cons.injEq, and_true]
      omega
  | case3 a b =>
      have ha : a < 256 := h a (by simp)
      have hb : b < 256 := h b (by simp)
      simp only [b64encode, b64decode]
      rw [if_neg (by omega)]
      simp only [if_true, List.cons.injEq, and_true]
      omega
  | case4 a b c rest ih =>
      have ha : a < 256 := h a (by simp)
      have hb : b < 256 := h b (by simp)
      have hc : c < 256 := h c (by simp)
      have hrest : ∀ x ∈ rest, x < 256 := fun x hx => h x (by simp [hx])
      simp only [b64encode, b64decode]
      rw [if_neg (by omega), if_neg (by omega)]
      have h1 : a / 4 * 4 + (a % 4 * 16 + b / 16) / 16 = a := by omega
      have h2 : (a % 4 * 16 + b / 16) % 16 * 16 + (b % 16 * 4 + c / 64) / 4 = b := by
        omega
      have h3 : (b % 16 * 4 + c / 64) % 4 * 64 + c % 64 = c := by omega
      rw [h1, h2, h3, ih hrest]

theorem wrap16_range (z : ℤ) : -32768 ≤ wrap16 z ∧ wrap16 z < 32768 := by
  unfold wrap16; omega

theorem wrap16_eq_self (z : ℤ) (h1 : -32768 ≤ z) (h2 : z < 32768) :
    wrap16 z = z := by
  unfold wrap16; omega

theorem bytesLE_lt (z : ℤ) : ∀ b ∈ bytesLE z, b < 256 := by
  intro b hb
  simp [bytesLE] at hb
  rcases hb with h | h <;> omega

theorem int16FromLE_bytesLE (z : ℤ) (h1 : -32768 ≤ z) (h2 : z < 32768) :
    int16FromLE ((z % 65536).toNat % 256) ((z % 65536).toNat / 256) = z := by
  unfold int16FromLE
  simp only []
  split <;> omega

theorem ratTrunc_abs_lt (q : ℚ) : |q - (ratTrunc q : ℚ)| < 1 := by
  unfold ratTrunc
  rcases le_or_lt 0 q with h | h
  · rw [if_pos h, abs_sub_lt_iff]
    constructor
    · linarith [Int.sub_one_lt_floor q]
    · linarith [Int.floor_le q]
  · rw [if_neg (not_le.mpr h), abs_sub_lt_iff]
    constructor
    · linarith [Int.le_ceil q]
    · linarith [Int.ceil_lt_add_one q]

theorem ratTrunc_range (s : ℚ) (h1 : -1 ≤ s) (h2 : s < 1) :
    -32768 ≤ ratTrunc (s * 32768) ∧ ratTrunc (s * 32768) < 32768 := by
  unfold ratTrunc
  have hlo : (-32768 : ℚ) ≤ s * 32768 := by linarith
  have hhi : s * 32768 < 32768 := by linarith
  rcases le_or_lt 0 (s * 32768) with h | h
  · rw [if_pos h]
    constructor
    · have : (0:ℤ) ≤ ⌊s * 32768⌋ := Int.floor_nonneg.mpr h
      omega
    · exact Int.floor_lt.mpr (by push_cast; linarith)
  · rw [if_neg (not_le.mpr h)]
    constructor
    · have : (-32768 : ℤ) ≤ ⌈s * 32768⌉ := by
        rw [Int.le_ceil_iff]
        push_cast
        linarith
      omega
    · have : ⌈s * 32768⌉ ≤ 0 := Int.ceil_le.mpr (by push_cast; linarith)
      omega

/-- The int16 values produced by the capture loop always lie in the signed
16-bit range. -/
theorem encodeSample_range (s : ℚ) :
    -32768 ≤ encodeSample s ∧ encodeSample s < 32768 :=
  wrap16_range _

theorem pcmToSamples_bytesLE (z : ℤ) (rest : List ℕ)
    (h1 : -32768 ≤ z) (h2 : z < 32768) :
    pcmToSamples (bytesLE z ++ rest) = ((z : ℚ) / 32768) :: pcmToSamples rest := by
  show pcmToSamples ((z % 65536).toNat % 256 :: (z % 65536).toNat / 256 :: rest) = _
  rw [pcmToSamples, int16FromLE_bytesLE z h1 h2]

/-- Decoding the encoded frame recovers exactly the quantized samples
`encodeSample s / 32768`. -/
theorem decode_encodeFrame (samples : List ℚ) :
    decodeSegment (encodeFrame samples) =
      samples.map fun s => ((encodeSample s : ℚ) / 32768) := by
  unfold decodeSegment encodeFrame
  rw [b64_round_trip]
  · induction samples with
    | nil => rfl
    | cons s rest ih =>
        have hr := encodeSample_range s
        rw [List.flatMap_cons, List.map_cons,
          pcmToSamples_bytesLE _ _ hr.1 hr.2, ih]
  · intro b hb
    rw [List.mem_flatMap] at hb
    rcases hb with ⟨x, _, hbx⟩
    exact bytesLE_lt _ b hbx

/-! ## Playback scheduling lemmas -/

theorem schedStarts_length (evs : List (ℚ × ℚ)) : ∀ ns,
    (schedStarts ns evs).length = evs.length := by
  induction evs with
  | nil => intro ns; rfl
  | cons e rest ih =>
      intro ns
      obtain ⟨t, d⟩ := e
      simp [schedStarts, ih]

/-- The audio branch of `processMessage` on a pure audio message. -/
theorem processMessage_audio (t d : ℚ) (s : MsgState) :
    processMessage t s (audioMsg d) =
      ({ s with nextStartTime := max s.nextStartTime t + d },
        some (max s.nextStartTime t)) := by
  rfl

/-- On a sequence of pure audio messages, the collected start times are the
scheduling recurrence `schedStarts` seeded with the current clock. -/
theorem runMessages_audio (evs : List (ℚ × ℚ)) : ∀ s : MsgState,
    (runMessages s (evs.map fun e => (audioMsg e.2, e.1))).2 =
      schedStarts s.nextStartTime evs := by
  induction evs with
  | nil => intro s; rfl
  | cons e rest ih =>
      intro s
      obtain ⟨t, d⟩ := e
      simp [runMessages, processMessage_audio, schedStarts, ih]

/-- Consecutive scheduled segments never overlap: each start time is at least
the previous start plus the previous duration. -/
theorem sched_chain_no_overlap (evs : List (ℚ × ℚ)) : ∀ ns,
    List.Chain' (fun p q : ℚ × ℚ => p.1 + p.2 ≤ q.1)
      ((schedStarts ns evs).zip (evs.map Prod.snd)) := by
  induction evs with
  | nil => intro ns; simp [schedStarts]
  | cons e rest ih =>
      intro ns
      obtain ⟨t, d⟩ := e
      simp only [schedStarts, List.map_cons, List.zip_cons_cons]
      rw [List.chain'_cons']
      refine ⟨?_, ih (max ns t + d)⟩
      intro q hq
      cases rest with
      | nil => simp [schedStarts] at hq
      | cons e2 r2 =>
          obtain ⟨t2, d2⟩ := e2
          simp only [schedStarts, List.map_cons, List.zip_cons_cons,
            List.head?_cons, Option.mem_def, Option.some.injEq] at hq
          rw [← hq]
          exact le_max_left _ _

/-- With nonnegative durations the start times are non-decreasing. -/
theorem sched_chain_monotone (evs : List (ℚ × ℚ)) (hd : ∀ e ∈ evs, 0 ≤ e.2) :
    ∀ ns, List.Chain' (· ≤ ·) (schedStarts ns evs) := by
  induction evs with
  | nil => intro ns; simp [schedStarts]
  | cons e rest ih =>
      intro ns
      obtain ⟨t, d⟩ := e
      have hd0 : (0:ℚ) ≤ d := hd (t, d) (by simp)
      have hrest : ∀ e ∈ rest, (0:ℚ) ≤ e.2 := fun e he => hd e (by simp [he])
      simp only [schedStarts]
      rw [List.chain'_cons']
      refine ⟨?_, ih hrest (max ns t + d)⟩
      intro q hq
      cases rest with
      | nil => simp [schedStarts] at hq
      | cons e2 r2 =>
          obtain ⟨t2, d2⟩ := e2
          simp only [schedStarts, List.head?_cons, Option.mem_def,
            Option.some.injEq] at hq
          rw [← hq]
          calc max ns t ≤ max ns t + d := by linarith
            _ ≤ max (max ns t + d) t2 := le_max_left _ _

/-- With nonnegative durations the playback clock `nextStartTime` never
rewinds across a run of audio messages. -/
theorem sched_clock_monotone (evs : List (ℚ × ℚ)) (hd : ∀ e ∈ evs, 0 ≤ e.2) :
    ∀ s : MsgState,
      s.nextStartTime ≤
        (runMessages s (evs.map fun e => (audioMsg e.2, e.1))).1.nextStartTime := by
  induction evs with
  | nil => intro s; exact le_refl _
  | cons e rest ih =>
      intro s
      obtain ⟨t, d⟩ := e
      have hd0 : (0:ℚ) ≤ d := hd (t, d) (by simp)
      have hrest : ∀ e ∈ rest, (0:ℚ) ≤ e.2 := fun e he => hd e (by simp [he])
      simp only [List.map_cons, runMessages, processMessage_audio]
      refine le_trans ?_ (ih hrest _)
      show s.nextStartTime ≤ max s.nextStartTime t + d
      have := le_max_left s.nextStartTime t
      linarith

/-- C1: for every sequence of inbound audio segments (durations `dᵢ`, observed
output-device times `tᵢ`) processed by the `onmessage` playback path, the
scheduled start times satisfy `startᵢ + dᵢ ≤ startᵢ₊₁` (no overlap), are
non-decreasing, and the playback clock `nextStartTime` is never rewound. -/
theorem c1_playback_no_overlap (evs : List (ℚ × ℚ))
    (hd : ∀ e ∈ evs, 0 ≤ e.2) (s : MsgState) :
    List.Chain' (fun p q : ℚ × ℚ => p.1 + p.2 ≤ q.1)
      (((runMessages s (evs.map fun e => (audioMsg e.2, e.1))).2).zip
        (evs.map Prod.snd)) ∧
    List.Chain' (· ≤ ·)
      ((runMessages s (evs.map fun e => (audioMsg e.2, e.1))).2) ∧
    s.nextStartTime ≤
      (runMessages s (evs.map fun e => (audioMsg e.2, e.1))).1.nextStartTime := by
  refine ⟨?_, ?_, sched_clock_monotone evs hd s⟩
  · rw [runMessages_audio]
    exact sched_chain_no_overlap evs s.nextStartTime
  · rw [runMessages_audio]
    exact sched_chain_monotone evs hd s.nextStartTime

/-- Witness for C1 at the concrete event sequence
`[(t,d)] = [(0,1), (3,2), (2,1)]` from the initial handler state. -/
theorem c1_playback_no_overlap_witness :
    (∀ e ∈ [((0:ℚ), (1:ℚ)), (3, 2), (2, 1)], 0 ≤ e.2) ∧
    (List.Chain' (fun p q : ℚ × ℚ => p.1 + p.2 ≤ q.1)
      (((runMessages ⟨"", "", [], 0⟩
          ([((0:ℚ), (1:ℚ)), (3, 2), (2, 1)].map
            fun e => (audioMsg e.2, e.1))).2).zip
        ([((0:ℚ), (1:ℚ)), (3, 2), (2, 1)].map Prod.snd)) ∧
    List.Chain' (· ≤ ·)
      ((runMessages ⟨"", "", [], 0⟩
        ([((0:ℚ), (1:ℚ)), (3, 2), (2, 1)].map
          fun e => (audioMsg e.2, e.1))).2) ∧
    (⟨"", "", [], 0⟩ : MsgState).nextStartTime ≤
      (runMessages ⟨"", "", [], 0⟩
        ([((0:ℚ), (1:ℚ)), (3, 2), (2, 1)].map
          fun e => (audioMsg e.2, e.1))).1.nextStartTime) :=
  ⟨by decide, c1_playback_no_overlap [(0, 1), (3, 2), (2, 1)] (by decide) _⟩

/-! ## Turn aggregation lemmas -/

/-- A handler run on a message without the turn-complete flag appends the
carried deltas to the buffers and leaves the history unchanged. -/
theorem processMessage_no_tc (t : ℚ) (s : MsgState) (m : Msg)
    (h : m.turnComplete = false) :
    (processMessage t s m).1.bufIn = s.bufIn ++ optText m.inputTranscription ∧
    (processMessage t s m).1.bufOut = s.bufOut ++ optText m.outputTranscription ∧
    (processMessage t s m).1.history = s.history := by
  unfold processMessage
  rcases m with ⟨mo, mi, mtc, ma⟩
  simp only at h
  subst h
  cases mo <;> cases mi <;> cases ma <;>
    simp [optText]

/-- A run of delta-only messages concatenates the deltas onto the buffers in
arrival order and does not touch the history. -/
theorem runMessages_no_tc (evs : List (Msg × ℚ)) : ∀ s : MsgState,
    (∀ e ∈ evs, e.1.turnComplete = false) →
    (runMessages s evs).1.bufIn = s.bufIn ++ inConcat evs ∧
    (runMessages s evs).1.bufOut = s.bufOut ++ outConcat evs ∧
    (runMessages s evs).1.history = s.history := by
  induction evs with
  | nil => intro s _; simp [runMessages, inConcat, outConcat]
  | cons e rest ih =>
      intro s hno
      obtain ⟨m, t⟩ := e
      have hm : m.turnComplete = false := hno (m, t) (by simp)
      have hrest : ∀ e ∈ rest, e.1.turnComplete = false :=
        fun e he => hno e (by simp [he])
      have hstep := processMessage_no_tc t s m hm
      have hrec := ih (processMessage t s m).1 hrest
      simp only [runMessages]
      refine ⟨?_, ?_, ?_⟩
      · rw [hrec.1, hstep.1, inConcat, String.append_assoc]
      · rw [hrec.2.1, hstep.2.1, outConcat, String.append_assoc]
      · rw [hrec.2.2, hstep.2.2]

/-- Splitting a message run at an intermediate point. -/
theorem runMessages_append (a b : List (Msg × ℚ)) : ∀ s : MsgState,
    (runMessages s (a ++ b)).1 = (runMessages (runMessages s a).1 b).1 := by
  induction a with
  | nil => intro s; rfl
  | cons e rest ih =>
      intro s
      obtain ⟨m, t⟩ := e
      simp only [List.cons_append, runMessages]
      exact ih (processMessage t s m).1

/-- The turn-complete branch of the handler on a bare turn-complete message. -/
theorem processMessage_turnComplete (t : ℚ) (s : MsgState) :
    processMessage t s turnCompleteMsg =
      ({ s with history := s.history ++ [(s.bufIn, s.bufOut)],
                bufIn := "", bufOut := "" }, none) := by
  rfl

/-- C2: for every interleaving of input- and output-transcription deltas
followed by one turn-complete signal, starting with empty accumulation
buffers, exactly one turn is appended to the history — its `user` field the
concatenation of the input deltas in arrival order and its `model` field the
concatenation of the output deltas — and both buffers are empty afterwards. -/
theorem c2_turn_aggregation (evs : List (Msg × ℚ)) (s : MsgState) (t : ℚ)
    (hIn : s.bufIn = "") (hOut : s.bufOut = "")
    (hno : ∀ e ∈ evs, e.1.turnComplete = false) :
    (runMessages s (evs ++ [(turnCompleteMsg, t)])).1.history
        = s.history ++ [(inConcat evs, outConcat evs)] ∧
    (runMessages s (evs ++ [(turnCompleteMsg, t)])).1.bufIn = "" ∧
    (runMessages s (evs ++ [(turnCompleteMsg, t)])).1.bufOut = "" := by
  have hrun := runMessages_no_tc evs s hno
  rw [runMessages_append evs [(turnCompleteMsg, t)] s]
  simp only [runMessages, processMessage_turnComplete]
  refine ⟨?_, by simp, by simp⟩
  rw [hrun.1, hrun.2.1, hrun.2.2, hIn, hOut, String.empty_append,
    String.empty_append]

/-- Witness for C2: scenario B of the spec — deltas `"hel"`, `"lo"` on the
input side and `"hi"` on the output side followed by turn completion yield
exactly the turn `("hello", "hi")`. -/
theorem c2_turn_aggregation_witness :
    ((⟨"", "", [], 0⟩ : MsgState).bufIn = "" ∧
     (⟨"", "", [], 0⟩ : MsgState).bufOut = "" ∧
     (∀ e ∈ [((inDeltaMsg "hel"), (0:ℚ)), (inDeltaMsg "lo", 0),
              (outDeltaMsg "hi", 0)], e.1.turnComplete = false)) ∧
    (runMessages ⟨"", "", [], 0⟩
        ([(inDeltaMsg "hel", 0), (inDeltaMsg "lo", 0), (outDeltaMsg "hi", 0)]
          ++ [(turnCompleteMsg, 0)])).1.history
      = [("hello", "hi")] := by
  refine ⟨⟨rfl, rfl, by decide⟩, ?_⟩
  have h := c2_turn_aggregation
    [(inDeltaMsg "hel", 0), (inDeltaMsg "lo", 0), (outDeltaMsg "hi", 0)]
    ⟨"", "", [], 0⟩ 0 rfl rfl (by decide)
  rw [h.1]
  rfl

/-- C8: a turn-complete signal arriving with both accumulation buffers empty
still appends a `ConversationTurn` with empty `user` and `model` strings —
recording is driven solely by the remote signal, never by buffer content. -/
theorem c8_empty_turn_recorded (h : List (String × String)) (ns t : ℚ) :
    processMessage t ⟨"", "", h, ns⟩ turnCompleteMsg =
      (⟨"", "", h ++ [("", "")], ns⟩, none) := by
  rfl

/-- C10: a single message carrying both transcription deltas and the
turn-complete flag appends the deltas to their buffers before processing the
completion, so the recorded turn includes the deltas carried by that very
message, and the buffers are cleared. -/
theorem c10_delta_before_complete (bin bout : String)
    (h : List (String × String)) (ns t : ℚ) (ti to_ : String) :
    processMessage t ⟨bin, bout, h, ns⟩
        { outputTranscription := some to_, inputTranscription := some ti,
          turnComplete := true, audioDuration := none } =
      (⟨"", "", h ++ [(bin ++ ti, bout ++ to_)], ns⟩, none) := by
  rfl

/-! ## Codec round-trip and wraparound claims -/

/-- Within the nominal range `[-1, 1)` the wraparound step is the identity. -/
theorem encodeSample_in_range (s : ℚ) (h1 : -1 ≤ s) (h2 : s < 1) :
    encodeSample s = ratTrunc (s * 32768) := by
  have h := ratTrunc_range s h1 h2
  exact wrap16_eq_self _ h.1 h.2

/-- Per-sample quantization error bound for in-range samples. -/
theorem quantization_error (s : ℚ) (h1 : -1 ≤ s) (h2 : s < 1) :
    |((encodeSample s : ℚ) / 32768) - s| ≤ 1 / 32768 := by
  rw [encodeSample_in_range s h1 h2]
  have habs := le_of_lt (ratTrunc_abs_lt (s * 32768))
  have heq : ((ratTrunc (s * 32768) : ℚ) / 32768) - s
      = -((s * 32768 - (ratTrunc (s * 32768) : ℚ)) / 32768) := by ring
  rw [heq, abs_neg, abs_div, abs_of_pos (by norm_num : (0:ℚ) < 32768)]
  linarith

/-- The concrete encode of the out-of-range sample `1.0`. -/
theorem encodeSample_one : encodeSample 1 = -32768 := by
  unfold encodeSample ratTrunc wrap16
  norm_num

/-- C3 counterexample: on the sample array `[1.0]` the decoded frame is
`[-1.0]`, which is *not* within one quantization step of the original — the
round-trip claim fails for out-of-range floats because the encoder wraps
rather than clamps. -/
theorem c3_counterexample :
    ¬ List.Forall₂ (fun d s => |d - s| ≤ 1 / 32768)
        (decodeSegment (encodeFrame [1])) [1] := by
  intro hf
  rw [decode_encodeFrame [1], List.map_cons, List.map_nil,
    encodeSample_one] at hf
  rcases hf with _ | ⟨h, -⟩
  norm_num at h

/-- C3 (amended): for every array of samples in the nominal in-range interval
`[-1, 1)`, decoding the encoded frame recovers each sample to within one
16-bit quantization step `1/32768`; out-of-range samples wrap instead. -/
theorem c3_round_trip_quantization (samples : List ℚ)
    (hin : ∀ s ∈ samples, -1 ≤ s ∧ s < 1) :
    List.Forall₂ (fun d s => |d - s| ≤ 1 / 32768)
      (decodeSegment (encodeFrame samples)) samples := by
  rw [decode_encodeFrame]
  induction samples with
  | nil => exact List.Forall₂.nil
  | cons s rest ih =>
      have hs := hin s (by simp)
      exact List.Forall₂.cons (quantization_error s hs.1 hs.2)
        (ih fun x hx => hin x (by simp [hx]))

/-- Witness for C3 (amended) at the concrete in-range sample array `[0]`. -/
theorem c3_round_trip_quantization_witness :
    (∀ s ∈ [(0:ℚ)], -1 ≤ s ∧ s < 1) ∧
    List.Forall₂ (fun d s => |d - s| ≤ 1 / 32768)
      (decodeSegment (encodeFrame [(0:ℚ)])) [(0:ℚ)] := by
  have hin : ∀ s ∈ [(0:ℚ)], -1 ≤ s ∧ s < 1 := by
    intro s hs
    rw [List.mem_singleton] at hs
    subst hs
    norm_num
  exact ⟨hin, c3_round_trip_quantization [0] hin⟩

/-- Out-of-range positive samples in `[1, 2)` produce large nonnegative
truncated values. -/
theorem ratTrunc_overflow (s : ℚ) (h1 : 1 ≤ s) (h2 : s < 2) :
    32768 ≤ ratTrunc (s * 32768) ∧ ratTrunc (s * 32768) < 65536 := by
  unfold ratTrunc
  rw [if_pos (by linarith : (0:ℚ) ≤ s * 32768)]
  constructor
  · exact Int.le_floor.mpr (by push_cast; linarith)
  · exact Int.floor_lt.mpr (by push_cast; linarith)

/-- C7: the float→int16 conversion performs no bounds clamping — the sample
value `1.0` encodes to `-32768` (wraparound), and every out-of-range sample in
`[1, 2)` encodes to a negative int16, never to the clamped value `32767`. -/
theorem c7_no_clamping :
    encodeSample 1 = -32768 ∧
    ∀ s : ℚ, 1 ≤ s → s < 2 → encodeSample s < 0 := by
  refine ⟨encodeSample_one, ?_⟩
  intro s h1 h2
  have h := ratTrunc_overflow s h1 h2
  unfold encodeSample wrap16
  omega

/-- Witness for C7 at the concrete out-of-range sample `3/2`. -/
theorem c7_no_clamping_witness :
    (1:ℚ) ≤ 3 / 2 ∧ (3:ℚ) / 2 < 2 ∧ encodeSample (3 / 2) < 0 :=
  ⟨by norm_num, by norm_num,
    c7_no_clamping.2 (3 / 2) (by norm_num) (by norm_num)⟩

/-! ## Lifecycle claims -/

/-- C4: teardown is idempotent — a second `stopLiveConversation` (or the same
path run by a late `closed` event) performs no release effects and leaves the
state unchanged, the state after the first call is terminal (`Closed`), and
across both calls every release effect is observed at most once. -/
theorem c4_stop_idempotent (s : LiveState) :
    stopLiveConversation (stopLiveConversation s).1
        = ((stopLiveConversation s).1, []) ∧
    isClosed (stopLiveConversation s).1 ∧
    ∀ e : Effect,
      ((stopLiveConversation s).2
        ++ (stopLiveConversation (stopLiveConversation s).1).2).count e ≤ 1 := by
  obtain ⟨sr, res, rec, err, hist⟩ := s
  refine ⟨?_, ?_, ?_⟩
  · cases sr <;> rcases res with _ | ⟨ic, oc⟩ <;>
      simp [stopLiveConversation]
  · cases sr <;> rcases res with _ | ⟨ic, oc⟩ <;>
      simp [stopLiveConversation, isClosed]
  · intro e
    have h2 : (stopLiveConversation
        (stopLiveConversation ⟨sr, res, rec, err, hist⟩).1).2 = [] := by
      cases sr <;> rcases res with _ | ⟨ic, oc⟩ <;> simp [stopLiveConversation]
    rw [h2, List.append_nil]
    rcases res with _ | ⟨ic, oc⟩
    · cases sr <;> cases e <;>
        simp [stopLiveConversation, List.count_cons, List.count_nil]
    · cases sr <;> cases ic <;> cases oc <;> cases e <;>
        simp [stopLiveConversation, List.count_cons, List.count_nil]

/-- C5 counterexample: a second `startLiveConversation` while recording does
not fail — the source's guard `if (isRecording) return;` returns silently, so
no `ConcurrentSessionError` (nor any failure) is surfaced; the state is left
untouched. -/
theorem c5_counterexample :
    (startLiveConversation .ok ⟨some (), none, true, none, []⟩).failure.isSome
        = false ∧
    (startLiveConversation .ok ⟨some (), none, true, none, []⟩).state
        = ⟨some (), none, true, none, []⟩ := by
  exact ⟨rfl, rfl⟩

/-- C5 (amended): a `startLiveConversation` call made while already recording
returns immediately — it surfaces no error at all (rather than a
`ConcurrentSessionError`), causes no state change, acquires and releases
nothing, and leaves the first session untouched. -/
theorem c5_second_start_noop (env : StartEnv) (s : LiveState)
    (h : s.isRecording = true) :
    startLiveConversation env s =
      { state := s, failure := none, acquired := [], released := [] } := by
  unfold startLiveConversation
  rw [if_pos h]

/-- Witness for C5 (amended) at a concrete recording state. -/
theorem c5_second_start_noop_witness :
    (⟨some (), none, true, none, []⟩ : LiveState).isRecording = true ∧
    startLiveConversation .ok ⟨some (), none, true, none, []⟩ =
      { state := ⟨some (), none, true, none, []⟩, failure := none,
        acquired := [], released := [] } :=
  ⟨rfl, c5_second_start_noop .ok ⟨some (), none, true, none, []⟩ rfl⟩

/-- C6 counterexample: when audio-input-context creation fails after the
microphone was acquired, the catch handler surfaces the error but releases
nothing — the partially-acquired microphone stream is not rolled back. -/
theorem c6_counterexample :
    (startLiveConversation .inputCtxFail ⟨none, none, false, none, []⟩).acquired
        = [Resource.micStream] ∧
    (startLiveConversation .inputCtxFail ⟨none, none, false, none, []⟩).released
        = [] ∧
    ¬ (∀ r ∈ (startLiveConversation .inputCtxFail
            ⟨none, none, false, none, []⟩).acquired,
        r ∈ (startLiveConversation .inputCtxFail
            ⟨none, none, false, none, []⟩).released) := by
  refine ⟨rfl, rfl, fun hall => ?_⟩
  have h := hall Resource.micStream (by simp [startLiveConversation])
  simp [startLiveConversation] at h

/-- C6 (amended): if any step of the start sequence fails, start surfaces the
failure reason, clears the recording flag and opens no session, but it
releases none of the resources acquired before the failing step; in the
particular case where `getUserMedia` rejects, nothing was acquired at all —
no audio context was created — and the controller is back in `Closed`. -/
theorem c6_start_failure (env : StartEnv) (s : LiveState)
    (hs : isClosed s) (henv : env ≠ .ok) :
    (startLiveConversation env s).failure = some (startFailMsg env) ∧
    (startLiveConversation env s).state.isRecording = false ∧
    (startLiveConversation env s).state.errorMsg = some (startFailMsg env) ∧
    (startLiveConversation env s).released = [] ∧
    (env = .micDenied →
      (startLiveConversation env s).acquired = [] ∧
      isClosed (startLiveConversation env s).state) := by
  obtain ⟨sr, res, rec, err, hist⟩ := s
  obtain ⟨h1, h2, h3⟩ := hs
  simp only at h1 h2 h3
  subst h1; subst h2; subst h3
  cases env with
  | ok => exact absurd rfl henv
  | micDenied => simp [startLiveConversation, startFailMsg, isClosed]
  | inputCtxFail => simp [startLiveConversation, startFailMsg]
  | outputCtxFail => simp [startLiveConversation, startFailMsg]
  | connectFail => simp [startLiveConversation, startFailMsg]

/-- Witness for C6 (amended) at the concrete closed state with a rejected
`getUserMedia`. -/
theorem c6_start_failure_witness :
    (isClosed ⟨none, none, false, none, []⟩ ∧ StartEnv.micDenied ≠ .ok) ∧
    ((startLiveConversation .micDenied ⟨none, none, false, none, []⟩).failure
        = some (startFailMsg .micDenied) ∧
     (startLiveConversation .micDenied
        ⟨none, none, false, none, []⟩).state.isRecording = false ∧
     (startLiveConversation .micDenied
        ⟨none, none, false, none, []⟩).state.errorMsg
        = some (startFailMsg .micDenied) ∧
     (startLiveConversation .micDenied
        ⟨none, none, false, none, []⟩).released = [] ∧
     (StartEnv.micDenied = .micDenied →
       (startLiveConversation .micDenied
          ⟨none, none, false, none, []⟩).acquired = [] ∧
       isClosed (startLiveConversation .micDenied
          ⟨none, none, false, none, []⟩).state)) :=
  ⟨⟨⟨rfl, rfl, rfl⟩, by simp⟩,
    c6_start_failure .micDenied ⟨none, none, false, none, []⟩
      ⟨rfl, rfl, rfl⟩ (by simp)⟩

/-- C9: after `stopLiveConversation` the session promise reference is `null`,
and every subsequent audio-processing callback forwards nothing to the
transport — the send is guarded by optional chaining on that reference. -/
theorem c9_no_send_after_stop (s : LiveState) (frame : List ℚ) :
    (stopLiveConversation s).1.sessionRef = none ∧
    audioProcess (stopLiveConversation s).1 frame = none := by
  obtain ⟨sr, res, rec, err, hist⟩ := s
  have hnone : (stopLiveConversation ⟨sr, res, rec, err, hist⟩).1.sessionRef
      = none := by
    cases sr <;> rcases res with _ | ⟨ic, oc⟩ <;> simp [stopLiveConversation]
  refine ⟨hnone, ?_⟩
  unfold audioProcess
  rw [hnone]

end LiveFeature
